import Mathlib

/-!
Verification of the core of `WhatsAppStickersConverter.js`: the codec bridge
(`convertImageDataToWebpURL`, `convertWebpURLToPngURL`), the quality-constrained
WebP encoding loop inside `resizeAndConvert`, the pack assembly algorithm of
`convertImagesToPacks`, and the archive listing of `unzip`.

The JavaScript source is shallowly embedded: numbers are exact (`ℕ`, `ℤ`, `ℚ`),
the WebAssembly codec module is an oracle parameter recording what the native
primitives report, and external collaborators (Jimp resize, canvas rendering)
are free constructors so that their invocation is observable.
-/

set_option maxRecDepth 10000

deriving instance DecidableEq for Except

namespace StickersConverter

/-- Transliteration of `Math.ceil(stickersFiles.length / 30)` on naturals:
the number of packs produced by `convertImagesToPacks`. -/
def numOfPacksFor (n : ℕ) : ℕ := (n + 29) / 30

/-- Transliteration of the fill loop of `convertImagesToPacks`:
`for (i = 0; i < stickersFiles.length; i++) stickersInPack[Math.floor(i / 30)].push(await processImageFile(stickersFiles[i]))`.
`process` stands for the per-sticker processing (`processImageFile(_, 'stickers')`),
`i` is the loop counter, `packs` the accumulator `stickersInPack`. -/
def fillPacks (process : α → β) : List (List β) → ℕ → List α → List (List β)
  | packs, _, [] => packs
  | packs, i, f :: rest =>
      fillPacks process (packs.set (i / 30) (packs.getD (i / 30) [] ++ [process f])) (i + 1) rest

/-- Transliteration of the rebalancing step of `convertImagesToPacks`:
if `numOfPacks > 1 && stickersInPack[numOfPacks-1].length < 3`, the donor pack
`stickersInPack[numOfPacks-2]` gives up its last `3 - lastLen` elements
(`splice(-(3 - lastLen))`, which removes and returns the final elements in order)
and they are prepended to the last pack. -/
def rebalancePacks (numOfPacks : ℕ) (packs : List (List β)) : List (List β) :=
  if 1 < numOfPacks ∧ (packs.getD (numOfPacks - 1) []).length < 3 then
    let lastPack := packs.getD (numOfPacks - 1) []
    let donor := packs.getD (numOfPacks - 2) []
    let moved := donor.drop (donor.length - (3 - lastPack.length))
    let packs1 := packs.set (numOfPacks - 2) (donor.take (donor.length - (3 - lastPack.length)))
    packs1.set (numOfPacks - 1) (moved ++ lastPack)
  else packs

/-- The sticker-partitioning part of `convertImagesToPacks`: allocate
`numOfPacks` empty packs, fill them in input order, then rebalance. -/
def stickersInPacks (process : α → β) (stickersFiles : List α) : List (List β) :=
  let numOfPacks := numOfPacksFor stickersFiles.length
  rebalancePacks numOfPacks (fillPacks process (List.replicate numOfPacks []) 0 stickersFiles)

/-- The slice of the (processed) input that the fill loop routes to pack `p`:
stickers with indices `30*p .. 30*p+29`. -/
def chunk (process : α → β) (s : List α) (p : ℕ) : List β :=
  ((s.drop (30 * p)).take 30).map process

lemma getD_set_same (l : List γ) (j : ℕ) (x d : γ) (h : j < l.length) :
    (l.set j x).getD j d = x := by
  rw [List.getD_eq_getElem?_getD, List.getElem?_set_self (by simpa using h)]
  rfl

lemma getD_set_other (l : List γ) (i j : ℕ) (x d : γ) (h : i ≠ j) :
    (l.set i x).getD j d = l.getD j d := by
  rw [List.getD_eq_getElem?_getD, List.getElem?_set_ne h, ← List.getD_eq_getElem?_getD]

lemma fillPacks_length (process : α → β) :
    ∀ (rest : List α) (i : ℕ) (packs : List (List β)),
      (fillPacks process packs i rest).length = packs.length
  | [], _, _ => rfl
  | _ :: rest, i, packs => by
      rw [fillPacks, fillPacks_length process rest]
      exact List.length_set ..

/-- What the fill loop does to pack `p`, for an arbitrary starting counter `i`:
it appends exactly the elements whose counter lands in `[30*p, 30*p + 30)`. -/
lemma fillPacks_getD (process : α → β) :
    ∀ (rest : List α) (i : ℕ) (packs : List (List β)) (p : ℕ), p < packs.length →
      (fillPacks process packs i rest).getD p [] =
        packs.getD p [] ++
          ((rest.drop (30 * p - i)).take ((30 * p + 30 - i) - (30 * p - i))).map process := by
  intro rest
  induction rest with
  | nil => intro i packs p hp; simp [fillPacks]
  | cons s rest ih =>
    intro i packs p hp
    rw [fillPacks, ih (i + 1) _ p (by simpa using hp)]
    by_cases hcur : i / 30 = p
    · have h1 : 30 * p ≤ i := by omega
      have h2 : i < 30 * p + 30 := by omega
      rw [hcur, getD_set_same _ _ _ _ hp]
      have e1 : 30 * p - i = 0 := by omega
      have e2 : 30 * p - (i + 1) = 0 := by omega
      have e3 : 30 * p + 30 - i = (30 * p + 30 - (i + 1)) + 1 := by omega
      rw [e1, e2, e3, List.drop_zero, List.drop_zero, Nat.sub_zero, Nat.sub_zero,
        List.take_succ_cons, List.map_cons, List.append_assoc, List.singleton_append]
    · rw [getD_set_other _ _ _ _ _ hcur]
      rcases Nat.lt_or_ge i (30 * p) with hlt | hge
      · have e1 : 30 * p - i = (30 * p - (i + 1)) + 1 := by omega
        have e2 : (30 * p + 30 - i) - (30 * p - i) = 30 := by omega
        have e3 : (30 * p + 30 - (i + 1)) - (30 * p - (i + 1)) = 30 := by omega
        rw [e2, e3, e1, List.drop_succ_cons]
      · have hpast : 30 * p + 30 ≤ i := by omega
        have e2 : (30 * p + 30 - i) - (30 * p - i) = 0 := by omega
        have e3 : (30 * p + 30 - (i + 1)) - (30 * p - (i + 1)) = 0 := by omega
        rw [e2, e3]
        simp

/-- Starting from `numOfPacks` empty packs and counter 0, the fill loop
produces exactly the contiguous 30-chunks of the processed input. -/
lemma fillPacks_eq_chunks (process : α → β) (s : List α) :
    fillPacks process (List.replicate (numOfPacksFor s.length) []) 0 s
      = (List.range (numOfPacksFor s.length)).map (chunk process s) := by
  apply List.ext_getElem
  · simp [fillPacks_length]
  · intro p h1 h2
    have hp : p < numOfPacksFor s.length := by simpa using h2
    have hlen : p < (List.replicate (numOfPacksFor s.length) ([] : List β)).length := by
      simpa using hp
    have hg := fillPacks_getD process s 0 (List.replicate (numOfPacksFor s.length) []) p hlen
    have hD : (fillPacks process (List.replicate (numOfPacksFor s.length) []) 0 s).getD p []
        = (fillPacks process (List.replicate (numOfPacksFor s.length) []) 0 s)[p] := by
      rw [List.getD_eq_getElem?_getD, List.getElem?_eq_getElem h1]; rfl
    rw [← hD, hg, List.getD_eq_getElem?_getD, List.getElem?_replicate_of_lt hp,
      List.getElem_map, List.getElem_range]
    simp [chunk]

lemma chunk_length (process : α → β) (s : List α) (p : ℕ) :
    (chunk process s p).length = min 30 (s.length - 30 * p) := by
  simp [chunk]

lemma chunk_eq_segment (process : α → β) (s : List α) (p : ℕ) :
    chunk process s p = ((s.map process).drop (30 * p)).take 30 := by
  simp [chunk]

lemma join_segments : ∀ (P : ℕ) (l : List β), l.length ≤ 30 * P →
    ((List.range P).map (fun p => (l.drop (30 * p)).take 30)).flatten = l
  | 0, l, h => by
      have hl : l = [] := List.eq_nil_of_length_eq_zero (by omega)
      simp [hl]
  | P + 1, l, h => by
      rw [List.range_succ_eq_map, List.map_cons, List.flatten_cons, List.map_map]
      have hmap : (List.range P).map ((fun p => (l.drop (30 * p)).take 30) ∘ Nat.succ)
          = (List.range P).map (fun p => ((l.drop 30).drop (30 * p)).take 30) := by
        apply List.map_congr_left
        intro p _
        have e : 30 * Nat.succ p = 30 + 30 * p := by omega
        simp only [Function.comp, e, ← List.drop_drop]
      have hlen : (l.drop 30).length ≤ 30 * P := by
        rw [List.length_drop]; omega
      rw [hmap, join_segments P (l.drop 30) hlen]
      simp

/-- Concatenating the chunks, pack by pack, recovers the processed input. -/
lemma join_chunks (process : α → β) (s : List α) :
    ((List.range (numOfPacksFor s.length)).map (chunk process s)).flatten = s.map process := by
  have hmap : (List.range (numOfPacksFor s.length)).map (chunk process s)
      = (List.range (numOfPacksFor s.length)).map
          (fun p => ((s.map process).drop (30 * p)).take 30) :=
    List.map_congr_left (fun p _ => chunk_eq_segment process s p)
  rw [hmap]
  apply join_segments
  rw [List.length_map]
  have : numOfPacksFor s.length = (s.length + 29) / 30 := rfl
  omega

lemma rebalancePacks_length (P : ℕ) (cs : List (List β)) :
    (rebalancePacks P cs).length = cs.length := by
  unfold rebalancePacks
  split <;> simp

lemma rebalancePacks_of_neg (P : ℕ) (cs : List (List β))
    (h : ¬(1 < P ∧ (cs.getD (P - 1) []).length < 3)) : rebalancePacks P cs = cs := by
  unfold rebalancePacks
  rw [if_neg h]

lemma rebalancePacks_of_pos (P : ℕ) (cs : List (List β))
    (h : 1 < P ∧ (cs.getD (P - 1) []).length < 3) :
    rebalancePacks P cs =
      (cs.set (P - 2) ((cs.getD (P - 2) []).take
          ((cs.getD (P - 2) []).length - (3 - (cs.getD (P - 1) []).length)))).set (P - 1)
        ((cs.getD (P - 2) []).drop
            ((cs.getD (P - 2) []).length - (3 - (cs.getD (P - 1) []).length))
          ++ cs.getD (P - 1) []) := by
  unfold rebalancePacks
  rw [if_pos h]

/-- Rebalancing moves elements between the last two packs but never changes
the concatenation of all packs. -/
lemma rebalancePacks_join (cs : List (List β)) (hP : 2 ≤ cs.length) :
    (rebalancePacks cs.length cs).flatten = cs.flatten := by
  by_cases h : 1 < cs.length ∧ (cs.getD (cs.length - 1) []).length < 3
  · rw [rebalancePacks_of_pos _ _ h]
    set L := cs.length with hL
    set d := cs.getD (L - 2) [] with hd
    set lastPack := cs.getD (L - 1) [] with hlast
    set m := d.length - (3 - lastPack.length) with hm
    have hbL : L - 1 < cs.length := by omega
    have haL : L - 2 < cs.length := by omega
    -- decompose cs as  take (L-2) ++ [d, lastPack]
    have hd_elem : cs[L - 2] = d := by
      rw [hd, List.getD_eq_getElem?_getD, List.getElem?_eq_getElem haL]; rfl
    have hlast_elem : cs[L - 1] = lastPack := by
      rw [hlast, List.getD_eq_getElem?_getD, List.getElem?_eq_getElem hbL]; rfl
    have hsplit : cs = cs.take (L - 2) ++ [d, lastPack] := by
      have t1 : cs.take ((L - 1) + 1) = cs.take (L - 1) ++ [lastPack] := by
        rw [List.take_succ, List.getElem?_eq_getElem hbL, hlast_elem]; rfl
      have e0 : cs.take ((L - 1) + 1) = cs := List.take_of_length_le (by omega)
      have e1 : cs = cs.take (L - 1) ++ [lastPack] := e0.symm.trans t1
      have t2 : cs.take ((L - 2) + 1) = cs.take (L - 2) ++ [d] := by
        rw [List.take_succ, List.getElem?_eq_getElem haL, hd_elem]; rfl
      have e02 : (L - 2) + 1 = L - 1 := by omega
      rw [e02] at t2
      calc cs = cs.take (L - 1) ++ [lastPack] := e1
        _ = (cs.take (L - 2) ++ [d]) ++ [lastPack] := by rw [t2]
        _ = cs.take (L - 2) ++ [d, lastPack] := by simp
    have hftake : (cs.take (L - 2)).length = L - 2 := by
      rw [List.length_take]; omega
    conv_lhs => rw [hsplit]
    conv_rhs => rw [hsplit]
    rw [List.set_append_right _ _ (by omega), List.set_append_right _ _ (by omega)]
    have ea : L - 2 - (cs.take (L - 2)).length = 0 := by rw [hftake]; omega
    have eb : L - 1 - (cs.take (L - 2)).length = 1 := by rw [hftake]; omega
    rw [ea, eb]
    have key : List.take m d ++ (List.drop m d ++ lastPack) = d ++ lastPack := by
      rw [← List.append_assoc, List.take_append_drop]
    simp only [List.set]
    simp only [List.flatten_append, List.flatten_cons, List.flatten_nil, List.append_nil, key]
  · rw [rebalancePacks_of_neg _ _ h]

lemma rebalancePacks_flatten (P : ℕ) (cs : List (List β)) (h : P = cs.length) :
    (rebalancePacks P cs).flatten = cs.flatten := by
  subst h
  by_cases h2 : 2 ≤ cs.length
  · exact rebalancePacks_join cs h2
  · rw [rebalancePacks_of_neg]
    rintro ⟨h1, -⟩
    omega

lemma stickersInPacks_eq (process : α → β) (s : List α) :
    stickersInPacks process s
      = rebalancePacks (numOfPacksFor s.length)
          ((List.range (numOfPacksFor s.length)).map (chunk process s)) := by
  show rebalancePacks (numOfPacksFor s.length)
      (fillPacks process (List.replicate (numOfPacksFor s.length) []) 0 s) = _
  rw [fillPacks_eq_chunks]

lemma chunks_getD (process : α → β) (s : List α) (p : ℕ) (hp : p < numOfPacksFor s.length) :
    ((List.range (numOfPacksFor s.length)).map (chunk process s)).getD p [] =
      chunk process s p := by
  rw [List.getD_eq_getElem?_getD, List.getElem?_map, List.getElem?_range hp]
  rfl

lemma stickersInPacks_of_neg (process : α → β) (s : List α)
    (h : ¬(1 < numOfPacksFor s.length ∧
      (chunk process s (numOfPacksFor s.length - 1)).length < 3)) :
    stickersInPacks process s = (List.range (numOfPacksFor s.length)).map (chunk process s) := by
  rw [stickersInPacks_eq]
  apply rebalancePacks_of_neg
  rintro ⟨h1, h2⟩
  refine h ⟨h1, ?_⟩
  rwa [chunks_getD process s _ (by omega)] at h2

lemma stickersInPacks_of_pos (process : α → β) (s : List α)
    (h1 : 1 < numOfPacksFor s.length)
    (h2 : (chunk process s (numOfPacksFor s.length - 1)).length < 3) :
    stickersInPacks process s =
      (((List.range (numOfPacksFor s.length)).map (chunk process s)).set
          (numOfPacksFor s.length - 2)
          ((chunk process s (numOfPacksFor s.length - 2)).take
            ((chunk process s (numOfPacksFor s.length - 2)).length -
              (3 - (chunk process s (numOfPacksFor s.length - 1)).length)))).set
        (numOfPacksFor s.length - 1)
        ((chunk process s (numOfPacksFor s.length - 2)).drop
            ((chunk process s (numOfPacksFor s.length - 2)).length -
              (3 - (chunk process s (numOfPacksFor s.length - 1)).length))
          ++ chunk process s (numOfPacksFor s.length - 1)) := by
  rw [stickersInPacks_eq]
  rw [rebalancePacks_of_pos _ _
    ⟨h1, by rwa [chunks_getD process s _ (by omega)]⟩]
  rw [chunks_getD process s _ (by omega), chunks_getD process s _ (by omega)]

/-- C7: for every input sticker list, the concatenation of the sticker
sequences of all produced packs, taken pack by pack in pack order, equals the
original input order of the (processed) stickers: rebalancing reorders nothing
and drops nothing. -/
theorem C7_order_preservation (process : α → β) (s : List α) :
    (stickersInPacks process s).flatten = s.map process := by
  rw [stickersInPacks_eq, rebalancePacks_flatten _ _ (by simp), join_chunks]

/-- C5: for every list of N sticker files with N ≥ 3, `convertImagesToPacks`
produces exactly `⌈N / 30⌉ = (N + 29) / 30` packs, and for N = 31 the two packs
have sizes 28 and 3 after rebalancing. -/
theorem C5_pack_count (process : α → β) (s : List α) (h3 : 3 ≤ s.length) :
    (stickersInPacks process s).length = (s.length + 29) / 30 ∧
      (s.length = 31 → (stickersInPacks process s).map List.length = [28, 3]) := by
  constructor
  · rw [stickersInPacks_eq, rebalancePacks_length]
    simp [numOfPacksFor]
  · intro h31
    have hP : numOfPacksFor s.length = 2 := by rw [h31]; decide
    have hl0 : (chunk process s 0).length = 30 := by rw [chunk_length, h31]; omega
    have hl1 : (chunk process s 1).length = 1 := by rw [chunk_length, h31]; omega
    have h2' : (chunk process s (numOfPacksFor s.length - 1)).length < 3 := by
      rw [hP]
      show (chunk process s 1).length < 3
      omega
    rw [stickersInPacks_of_pos process s (by rw [hP]; omega) h2', hP]
    show ((((List.range 2).map (chunk process s)).set 0 _).set 1 _).map List.length = [28, 3]
    have hrange : (List.range 2).map (chunk process s)
        = [chunk process s 0, chunk process s 1] := rfl
    rw [hrange]
    rw [show ∀ (x y c0 c1 : List β), (([c0, c1].set 0 x).set 1 y) = [x, y] from
      fun _ _ _ _ => rfl]
    show [(chunk process s 0).take _, _ ++ _].map List.length = [28, 3]
    simp only [List.map_cons, List.map_nil, List.length_take, List.length_append,
      List.length_drop, hl0, hl1]
    norm_num

/-- Witness for C5 at the concrete input `List.range 31`. -/
theorem C5_pack_count_witness :
    (stickersInPacks (fun n : ℕ => n) (List.range 31)).length = (31 + 29) / 30 ∧
      (stickersInPacks (fun n : ℕ => n) (List.range 31)).map List.length = [28, 3] := by
  have h := C5_pack_count (fun n : ℕ => n) (List.range 31) (by simp)
  rw [List.length_range] at h
  exact ⟨h.1, h.2 (by simp)⟩

/-- C6: for every N ≥ 3, after pack assembly and rebalancing every produced
pack contains between 3 and 30 stickers; and when there is more than one pack
and the last chunk has fewer than 3 stickers, exactly `3 - len(lastChunk)`
stickers are moved from the end of the second-to-last chunk to the front of
the last chunk. -/
theorem C6_pack_size_bounds (process : α → β) (s : List α) (h3 : 3 ≤ s.length) :
    (∀ pack ∈ stickersInPacks process s, 3 ≤ pack.length ∧ pack.length ≤ 30) ∧
      (1 < numOfPacksFor s.length →
        (chunk process s (numOfPacksFor s.length - 1)).length < 3 →
        (stickersInPacks process s)[numOfPacksFor s.length - 1]? =
            some ((chunk process s (numOfPacksFor s.length - 2)).drop
                ((chunk process s (numOfPacksFor s.length - 2)).length -
                  (3 - (chunk process s (numOfPacksFor s.length - 1)).length))
              ++ chunk process s (numOfPacksFor s.length - 1)) ∧
          (stickersInPacks process s)[numOfPacksFor s.length - 2]? =
            some ((chunk process s (numOfPacksFor s.length - 2)).take
              ((chunk process s (numOfPacksFor s.length - 2)).length -
                (3 - (chunk process s (numOfPacksFor s.length - 1)).length))) ∧
          ((chunk process s (numOfPacksFor s.length - 2)).drop
              ((chunk process s (numOfPacksFor s.length - 2)).length -
                (3 - (chunk process s (numOfPacksFor s.length - 1)).length))).length =
            3 - (chunk process s (numOfPacksFor s.length - 1)).length) := by
  have hPdef : numOfPacksFor s.length = (s.length + 29) / 30 := rfl
  by_cases htrig : 1 < numOfPacksFor s.length ∧
      (chunk process s (numOfPacksFor s.length - 1)).length < 3
  · obtain ⟨h1, h2⟩ := htrig
    have hre := stickersInPacks_of_pos process s h1 h2
    have hlen2 : (chunk process s (numOfPacksFor s.length - 2)).length
        = min 30 (s.length - 30 * (numOfPacksFor s.length - 2)) := chunk_length ..
    have hlen1 : (chunk process s (numOfPacksFor s.length - 1)).length
        = min 30 (s.length - 30 * (numOfPacksFor s.length - 1)) := chunk_length ..
    have hcslen : (((List.range (numOfPacksFor s.length)).map (chunk process s)).set
        (numOfPacksFor s.length - 2)
        ((chunk process s (numOfPacksFor s.length - 2)).take
          ((chunk process s (numOfPacksFor s.length - 2)).length -
            (3 - (chunk process s (numOfPacksFor s.length - 1)).length)))).length
        = numOfPacksFor s.length := by
      simp
    constructor
    · intro pack hmem
      rw [hre, List.mem_iff_getElem?] at hmem
      obtain ⟨p, hp⟩ := hmem
      rw [List.getElem?_set] at hp
      split_ifs at hp with hb hb'
      · injection hp with hp
        subst hp
        simp only [List.length_append, List.length_drop]
        omega
      · rw [List.getElem?_set] at hp
        split_ifs at hp with ha ha'
        · injection hp with hp
          subst hp
          simp only [List.length_take]
          omega
        · by_cases hpP : p < numOfPacksFor s.length
          · rw [List.getElem?_map, List.getElem?_range hpP, Option.map_some'] at hp
            injection hp with hp
            subst hp
            rw [chunk_length]
            omega
          · rw [List.getElem?_eq_none (by simpa using hpP)] at hp
            exact Option.noConfusion hp

    · intro _ _
      refine ⟨?_, ?_, ?_⟩
      · rw [hre, List.getElem?_set_self (by rw [hcslen]; omega)]
      · rw [hre, List.getElem?_set_ne (by omega),
          List.getElem?_set_self (by simp; omega)]
      · rw [List.length_drop]
        omega
  · push_neg at htrig
    constructor
    · intro pack hmem
      rw [stickersInPacks_of_neg process s (by
        rintro ⟨ha, hb⟩
        exact absurd hb (by omega))] at hmem
      rw [List.mem_map] at hmem
      obtain ⟨p, hpmem, rfl⟩ := hmem
      rw [List.mem_range] at hpmem
      rw [chunk_length]
      by_cases hlastp : p = numOfPacksFor s.length - 1
      · by_cases hP1 : numOfPacksFor s.length = 1
        · subst hlastp
          omega
        · have hge : 3 ≤ (chunk process s (numOfPacksFor s.length - 1)).length :=
            htrig (by omega)
          rw [chunk_length] at hge
          subst hlastp
          omega
      · omega
    · intro ha hb
      exact absurd hb (by have := htrig ha; omega)

/-- Witness for C6: the rebalance-movement clause at the concrete input
`List.range 31` (two packs, last chunk of size 1, two stickers moved). -/
theorem C6_pack_size_bounds_witness :
    (stickersInPacks (fun n : ℕ => n) (List.range 31))[numOfPacksFor (List.range 31).length - 1]? =
      some ((chunk (fun n : ℕ => n) (List.range 31)
              (numOfPacksFor (List.range 31).length - 2)).drop
          ((chunk (fun n : ℕ => n) (List.range 31)
              (numOfPacksFor (List.range 31).length - 2)).length -
            (3 - (chunk (fun n : ℕ => n) (List.range 31)
              (numOfPacksFor (List.range 31).length - 1)).length))
        ++ chunk (fun n : ℕ => n) (List.range 31)
            (numOfPacksFor (List.range 31).length - 1)) :=
  ((C6_pack_size_bounds (fun n : ℕ => n) (List.range 31) (by decide)).2
    (by decide) (by decide)).1

/-- A tray image as delivered for a pack: either the processed base tray
unmodified (`Promise.resolve(tray)`), or the result of the external canvas
overlay `addNumberToTray(tray, text)`, recorded as a free constructor so that
invocation of the overlay is observable. The numeric argument is the value
interpolated into the drawn text, i.e. `index + 1`. -/
inductive TrayImage (τ : Type) where
  | base (tray : τ)
  | numbered (tray : τ) (idx : ℕ)
  deriving DecidableEq

/-- Transliteration of the tray production of `convertImagesToPacks`:
`stickersInPack.map((pack, index) => numOfPacks === 1 ? Promise.resolve(tray) : addNumberToTray(tray, index + 1))`.
At that point `stickersInPack` is a list of `numOfPacks` empty packs, so the
map runs over indices `0 .. numOfPacks - 1`. -/
def makeTrays (tray : τ) (numOfPacks : ℕ) : List (TrayImage τ) :=
  (List.range numOfPacks).map
    (fun index =>
      if numOfPacks = 1 then TrayImage.base tray else TrayImage.numbered tray (index + 1))

/-- The result of `convertImagesToPacks` (`emitter.emit('load', { trays, stickersInPack })`):
the per-pack trays and the partitioned stickers. `process` is the per-sticker
`processImageFile(_, 'stickers')`, `tray` the already processed base tray. -/
def convertImagesToPacks (process : α → β) (tray : τ) (stickersFiles : List α) :
    List (TrayImage τ) × List (List β) :=
  (makeTrays tray (numOfPacksFor stickersFiles.length), stickersInPacks process stickersFiles)

/-- C9: when there is exactly one pack (N ≤ 30), the tray used is the base
tray unmodified and the index overlay is never invoked; with more than one
pack, pack `i` (0-based) gets the base tray overlaid with its 1-based index
`i + 1`, in pack order. -/
theorem C9_tray_overlay (process : α → β) (tray : τ) (s : List α) (h3 : 3 ≤ s.length) :
    (s.length ≤ 30 → (convertImagesToPacks process tray s).1 = [TrayImage.base tray]) ∧
      (30 < s.length → ∀ i < numOfPacksFor s.length,
        ((convertImagesToPacks process tray s).1)[i]? =
          some (TrayImage.numbered tray (i + 1))) := by
  have hPdef : numOfPacksFor s.length = (s.length + 29) / 30 := rfl
  constructor
  · intro hle
    have hP : numOfPacksFor s.length = 1 := by omega
    show makeTrays tray (numOfPacksFor s.length) = _
    rw [hP]
    rfl
  · intro hgt i hi
    have hP1 : numOfPacksFor s.length ≠ 1 := by omega
    show (makeTrays tray (numOfPacksFor s.length))[i]? = _
    rw [makeTrays, List.getElem?_map, List.getElem?_range hi, Option.map_some',
      if_neg hP1]

/-- Witness for C9 at the concrete input `List.range 31`: the first of the two
packs gets the tray overlaid with index 1. -/
theorem C9_tray_overlay_witness :
    ((convertImagesToPacks (fun n : ℕ => n) (0 : ℕ) (List.range 31)).1)[0]? =
      some (TrayImage.numbered 0 1) :=
  (C9_tray_overlay (fun n : ℕ => n) 0 (List.range 31) (by decide)).2 (by decide) 0 (by decide)

/-- Transliteration of the quality-constrained encoding loop of
`resizeAndConvert` (the `toWebp` branch; `useChrome` is the constant `false`,
so the loop always calls `convertImageDataToWebpURL`):

```
while (true) {
  webpUrl = this.convertImageDataToWebpURL(imageData, Math.ceil(quality * 100));
  const byteLength = atob(webpUrl.replace(...)).length;
  if (byteLength <= 100000) break;
  quality -= 0.08;
  const errorMsg = `WebP size ${Math.ceil(byteLength / 1024)}kb exceeded 100kb`;
  if (quality <= 0.07) throw new Error(`Error converting files, ${errorMsg}`);
}
return webpUrl;
```

`enc` abstracts the codec bridge applied to this call's fixed `imageData`: it
maps the integer quality passed to the bridge to the encoded WebP bytes (the
data-URL payload, so `byteLength = (enc q).length`). The JavaScript float
`quality` is here idealized as an exact rational (`0.08 = 2/25`,
`0.07 = 7/100`): adequate for the size dichotomy, whose control flow is
identical under double semantics; the faithful binary64 quality trajectory
is modelled separately by `qualityFloatAt` and `webpLoopFloatFrom` below.
The thrown `Error` carries a message rendering `Math.ceil(byteLength / 1024)`
of the byte length of the last attempt; the model's error value carries that
`byteLength`. -/
def webpLoop (enc : ℤ → List ℕ) (quality : ℚ) : Except ℕ (List ℕ) :=
  if (enc (Int.ceil (quality * 100))).length ≤ 100000 then
    Except.ok (enc (Int.ceil (quality * 100)))
  else if _h : quality - 2/25 ≤ 7/100 then
    Except.error (enc (Int.ceil (quality * 100))).length
  else webpLoop enc (quality - 2/25)
termination_by (Int.ceil (quality * 25)).toNat
decreasing_by
  have h2 : (quality - 2/25) * 25 = quality * 25 - 2 := by ring
  have h3 : Int.ceil (quality * 25 - (2 : ℚ)) = Int.ceil (quality * 25) - 2 := by
    rw [show ((2 : ℚ)) = ((2 : ℤ) : ℚ) by norm_num, Int.ceil_sub_int]
  have h4 : 3 < Int.ceil (quality * 25) := by
    rw [Int.lt_ceil]
    rw [not_le] at _h
    push_cast
    linarith
  rw [h2, h3]
  omega

/-- The quality value of the `k`-th attempt (0-based): `1 - 0.08 * k`. -/
def qualityAt (k : ℕ) : ℚ := 1 - (2/25) * k

lemma qualityAt_zero : qualityAt 0 = 1 := by
  simp [qualityAt]

lemma qualityAt_succ (k : ℕ) : qualityAt k - 2/25 = qualityAt (k + 1) := by
  unfold qualityAt
  push_cast
  ring

/-- Scaling the `k`-th quality by 100 and rounding up yields `100 - 8k` (in
exact arithmetic the ceiling acts on the integer `100 - 8k` itself). -/
lemma ceil_qualityAt_mul (k : ℕ) : Int.ceil (qualityAt k * 100) = 100 - 8 * (k : ℤ) := by
  have h : qualityAt k * 100 = ((100 - 8 * (k : ℤ) : ℤ) : ℚ) := by
    unfold qualityAt
    push_cast
    ring
  rw [h, Int.ceil_intCast]

/-- The floor check `quality <= 0.07` (performed after the decrement) first
succeeds when the failed attempt was the twelfth, `k = 11`. -/
lemma qualityAt_floor_iff (k : ℕ) : qualityAt (k + 1) ≤ 7/100 ↔ 11 ≤ k := by
  unfold qualityAt
  constructor
  · intro h
    by_contra hk
    push_neg at hk
    have hcast : ((k : ℚ)) ≤ 10 := by exact_mod_cast Nat.lt_succ_iff.mp hk
    push_cast at h
    linarith
  · intro h
    have hcast : (11 : ℚ) ≤ (k : ℚ) := by exact_mod_cast h
    push_cast
    linarith

lemma webpLoop_step (enc : ℤ → List ℕ) (k : ℕ) :
    webpLoop enc (qualityAt k) =
      if (enc (100 - 8 * (k : ℤ))).length ≤ 100000 then
        Except.ok (enc (100 - 8 * (k : ℤ)))
      else if 11 ≤ k then Except.error (enc (100 - 8 * (k : ℤ))).length
      else webpLoop enc (qualityAt (k + 1)) := by
  have hcond : (qualityAt k - 2/25 ≤ 7/100) ↔ 11 ≤ k := by
    rw [qualityAt_succ]
    exact qualityAt_floor_iff k
  rw [webpLoop, ceil_qualityAt_mul]
  by_cases hfit : (enc (100 - 8 * (k : ℤ))).length ≤ 100000
  · rw [if_pos hfit, if_pos hfit]
  · rw [if_neg hfit, if_neg hfit]
    by_cases hfloor : 11 ≤ k
    · rw [dif_pos (hcond.mpr hfloor), if_pos hfloor]
    · rw [dif_neg (fun hc => hfloor (hcond.mp hc)), if_neg hfloor, qualityAt_succ]

lemma webpLoop_err (enc : ℤ → List ℕ) :
    ∀ (n k : ℕ), k + n = 11 →
      (∀ j, k ≤ j → j ≤ 11 → 100000 < (enc (100 - 8 * (j : ℤ))).length) →
      webpLoop enc (qualityAt k) = Except.error (enc (100 - 8 * ((11 : ℕ) : ℤ))).length
  | 0, k, hk, hover => by
      have hk11 : k = 11 := by omega
      subst hk11
      rw [webpLoop_step, if_neg (by have := hover 11 le_rfl le_rfl; omega), if_pos le_rfl]
  | n + 1, k, hk, hover => by
      rw [webpLoop_step, if_neg (by have := hover k le_rfl (by omega); omega),
        if_neg (by omega)]
      exact webpLoop_err enc n (k + 1) (by omega)
        (fun j hj1 hj2 => hover j (by omega) hj2)

lemma webpLoop_ok (enc : ℤ → List ℕ) :
    ∀ (n k j0 : ℕ), k + n = 11 → k ≤ j0 → j0 ≤ 11 →
      (enc (100 - 8 * (j0 : ℤ))).length ≤ 100000 →
      (∀ j, k ≤ j → j < j0 → 100000 < (enc (100 - 8 * (j : ℤ))).length) →
      webpLoop enc (qualityAt k) = Except.ok (enc (100 - 8 * (j0 : ℤ)))
  | 0, k, j0, hk, hkj, hj11, hfit, hmin => by
      have hk11 : k = 11 := by omega
      have hj0 : j0 = 11 := by omega
      subst hk11; subst hj0
      rw [webpLoop_step, if_pos hfit]
  | n + 1, k, j0, hk, hkj, hj11, hfit, hmin => by
      by_cases hj : j0 = k
      · subst hj
        rw [webpLoop_step, if_pos hfit]
      · rw [webpLoop_step, if_neg (by have := hmin k le_rfl (by omega); omega),
          if_neg (by omega)]
        exact webpLoop_ok enc n (k + 1) j0 (by omega) (by omega) hj11 hfit
          (fun j hj1 hj2 => hmin j (by omega) hj2)

/-- The quality loop either returns bytes within the ceiling or fails with
the byte length of the last attempt (made at scaled quality 12), which still
exceeded the ceiling. -/
lemma webpLoop_size_spec (enc : ℤ → List ℕ) :
    (∃ bytes, webpLoop enc 1 = Except.ok bytes ∧ bytes.length ≤ 100000) ∨
      (webpLoop enc 1 = Except.error (enc 12).length ∧ 100000 < (enc 12).length) := by
  rw [← qualityAt_zero]
  by_cases hex : ∃ j : ℕ, j ≤ 11 ∧ (enc (100 - 8 * (j : ℤ))).length ≤ 100000
  · left
    have hspec := Nat.find_spec hex
    refine ⟨enc (100 - 8 * ((Nat.find hex : ℕ) : ℤ)), ?_, hspec.2⟩
    exact webpLoop_ok enc 11 0 (Nat.find hex) (by omega) (by omega) hspec.1 hspec.2
      (fun j _ hjlt => by
        have hnot := Nat.find_min hex hjlt
        push_neg at hnot
        exact hnot (by omega))
  · right
    push_neg at hex
    have herr := webpLoop_err enc 11 0 (by omega) (fun j _ hj2 => hex j hj2)
    have h12 : ((100 : ℤ) - 8 * ((11 : ℕ) : ℤ)) = 12 := by norm_num
    rw [h12] at herr
    refine ⟨herr, ?_⟩
    have := hex 11 le_rfl
    rwa [show ((100 : ℤ) - 8 * ((11 : ℕ) : ℤ)) = 12 by norm_num] at this

/-- An encoder behaviour whose output exceeds the ceiling at every quality. -/
def oversizedEnc : ℤ → List ℕ := fun _ => List.replicate 100001 0

lemma oversizedEnc_length (q : ℤ) : (oversizedEnc q).length = 100001 :=
  List.length_replicate ..

/-- Binade index of a positive scaled magnitude for the binary64 model
below: the least `i` with `a < 2^i`, so `2^(i-1) ≤ a < 2^i`. In the model a
double is represented exactly by its value scaled by `2^57` (an integer:
every double this program's quality arithmetic produces, with magnitude in
`[2^-5, 2^7)`, is a multiple of `2^-57`). -/
def fexpIdx (a : ℤ) : ℕ :=
  match (List.range 115).find? (fun i => decide (a < 2 ^ i)) with
  | some i => i
  | none => 115

/-- Round-to-nearest, ties-to-even, onto the binary64 grid, in the scaled
representation: a value in binade `i` has grid spacing `g = 2^(i-53)` scaled
units (i.e. `2^(i-57-53)` in reals); inputs with `i ≤ 53` (magnitude below
`2^-4`) already lie on a grid at least as fine as `2^-57` and are returned
unchanged — exact for every value this program produces. Subnormals and
overflow are unreachable here and out of scope. -/
def froundTo64 (v : ℤ) : ℤ :=
  if v = 0 then 0
  else if fexpIdx |v| ≤ 53 then v
  else if 2 * (v % 2 ^ (fexpIdx |v| - 53)) < 2 ^ (fexpIdx |v| - 53) then
    2 ^ (fexpIdx |v| - 53) * (v / 2 ^ (fexpIdx |v| - 53))
  else if 2 ^ (fexpIdx |v| - 53) < 2 * (v % 2 ^ (fexpIdx |v| - 53)) then
    2 ^ (fexpIdx |v| - 53) * (v / 2 ^ (fexpIdx |v| - 53)) + 2 ^ (fexpIdx |v| - 53)
  else if (v / 2 ^ (fexpIdx |v| - 53)) % 2 = 0 then
    2 ^ (fexpIdx |v| - 53) * (v / 2 ^ (fexpIdx |v| - 53))
  else 2 ^ (fexpIdx |v| - 53) * (v / 2 ^ (fexpIdx |v| - 53)) + 2 ^ (fexpIdx |v| - 53)

/-- The binary64 double denoted by the source literal `0.08`
(`5764607523034235 × 2^-56 = 0.08000000000000000166…`), scaled by `2^57`. -/
def dbl008 : ℤ := 11529215046068470

/-- The binary64 double denoted by the source literal `0.07`
(`5044031582654956 × 2^-56 = 0.07000000000000000666…`), scaled by `2^57`. -/
def dbl007 : ℤ := 10088063165309912

/-- `dbl008` is the binary64 value of `0.08`: a grid point of the binade
`[2^-4, 2^-3)` (ulp `2^-56`) within half an ulp of `8/100`. -/
lemma dbl008_nearest : |(8/100 : ℚ) - (dbl008 : ℚ) / 2 ^ 57| < 1 / 2 ^ 57 := by
  rw [abs_sub_lt_iff]
  unfold dbl008
  norm_num

/-- `dbl007` is the binary64 value of `0.07`: a grid point of the binade
`[2^-4, 2^-3)` (ulp `2^-56`) within half an ulp of `7/100`. -/
lemma dbl007_nearest : |(7/100 : ℚ) - (dbl007 : ℚ) / 2 ^ 57| < 1 / 2 ^ 57 := by
  rw [abs_sub_lt_iff]
  unfold dbl007
  norm_num

/-- The value of the JS `quality` variable after `k` executions of
`quality -= 0.08` under IEEE-754 double semantics, starting from `1.0`
(all values scaled by `2^57`): each step is the binary64 rounding of the
exact difference. -/
def qualityFloatAt : ℕ → ℤ
  | 0 => 2 ^ 57
  | k + 1 => froundTo64 (qualityFloatAt k - dbl008)

/-- `Math.ceil` of a double given in scaled representation (the mathematical
ceiling of its value; the resulting small integers are exact doubles). -/
def ceilScaled (v : ℤ) : ℤ := -((-v) / 2 ^ 57)

/-- The integer qualities the codec bridge receives at attempts `0..11`
under double semantics: `Math.ceil(quality * 100)` of the drifted doubles —
85, 77, …, 13 from the third attempt on, not the idealized 84, 76, …, 12. -/
def scaledQualities : List ℤ := [100, 92, 85, 77, 69, 61, 53, 45, 37, 29, 21, 13]

lemma scaledQualities_fact :
    ∀ k < 12, ceilScaled (froundTo64 (qualityFloatAt k * 100)) =
      scaledQualities.getD k 0 := by
  decide

lemma qualityFloat_floor_lt : ∀ k < 11, ¬(qualityFloatAt (k + 1) ≤ dbl007) := by
  decide

lemma qualityFloat_floor_12 : qualityFloatAt 12 ≤ dbl007 := by
  decide

lemma froundTo64_nonpos (v : ℤ) (hv : v ≤ 0) : froundTo64 v ≤ 0 := by
  unfold froundTo64
  split_ifs with h0 hile h1 h2 h3
  · exact le_refl 0
  · exact hv
  all_goals
    have hvneg : v < 0 := by omega
    have hg : (0 : ℤ) < 2 ^ (fexpIdx |v| - 53) := by positivity
    have hr0 : 0 ≤ v % 2 ^ (fexpIdx |v| - 53) := Int.emod_nonneg v (ne_of_gt hg)
    have hid := Int.ediv_add_emod v (2 ^ (fexpIdx |v| - 53))
    have hq : v / 2 ^ (fexpIdx |v| - 53) ≤ -1 := by
      by_contra hq
      push_neg at hq
      have hq0 : 0 ≤ v / 2 ^ (fexpIdx |v| - 53) := by omega
      have hA : 0 ≤ 2 ^ (fexpIdx |v| - 53) * (v / 2 ^ (fexpIdx |v| - 53)) :=
        mul_nonneg (le_of_lt hg) hq0
      omega
    have hlow : 2 ^ (fexpIdx |v| - 53) * (v / 2 ^ (fexpIdx |v| - 53))
        ≤ -(2 ^ (fexpIdx |v| - 53)) := by
      have hm := mul_le_mul_of_nonneg_left hq (le_of_lt hg)
      linarith [hm]
  · linarith [hlow, hg]
  · linarith [hlow, hg]
  · linarith [hlow, hg]
  · linarith [hlow, hg]

/-- Once twelve decrements have happened, the quality stays at or below the
double `0.07` forever (it keeps decreasing past zero). -/
lemma qualityFloat_past_floor (j : ℕ) (hj : 12 ≤ j) : qualityFloatAt j ≤ dbl007 := by
  induction j with
  | zero => omega
  | succ n ih =>
    rcases Nat.lt_or_ge n 12 with h | h
    · have hn : n = 11 := by omega
      subst hn
      exact qualityFloat_floor_12
    · have hq := ih (by omega)
      show froundTo64 (qualityFloatAt n - dbl008) ≤ dbl007
      have h1 : qualityFloatAt n - dbl008 ≤ 0 := by
        have hlt : dbl007 < dbl008 := by decide
        omega
      have h2 := froundTo64_nonpos _ h1
      have h3 : (0 : ℤ) ≤ dbl007 := by decide
      omega

/-- Transliteration of the quality-constrained loop of `resizeAndConvert`
under IEEE-754 double semantics (`webpLoop` is the exact-arithmetic
idealization of the same loop, adequate for the size dichotomy since both
have the same control flow). The loop state is the number `k` of decrements
performed so far, so the `quality` variable holds the double
`qualityFloatAt k`; the bridge receives `Math.ceil(quality * 100)` of the
binary64 product, and the floor check `quality <= 0.07` compares the
decremented double with the double `0.07`. -/
def webpLoopFloatFrom (enc : ℤ → List ℕ) (k : ℕ) : Except ℕ (List ℕ) :=
  if (enc (ceilScaled (froundTo64 (qualityFloatAt k * 100)))).length ≤ 100000 then
    Except.ok (enc (ceilScaled (froundTo64 (qualityFloatAt k * 100))))
  else if _h : qualityFloatAt (k + 1) ≤ dbl007 then
    Except.error (enc (ceilScaled (froundTo64 (qualityFloatAt k * 100)))).length
  else webpLoopFloatFrom enc (k + 1)
termination_by 12 - k
decreasing_by
  have hk : k < 12 := by
    by_contra hcon
    exact _h (qualityFloat_past_floor (k + 1) (by omega))
  omega

/-- The double-semantics loop started like the source, with zero decrements
performed (`quality = 1.0`). -/
def webpLoopFloat (enc : ℤ → List ℕ) : Except ℕ (List ℕ) :=
  webpLoopFloatFrom enc 0

/-- The sequence of quality values (scaled doubles) attempted by the
double-semantics loop from state `k`, in order: the observation of the same
recursion as `webpLoopFloatFrom`. -/
def webpAttemptsFloatFrom (enc : ℤ → List ℕ) (k : ℕ) : List ℤ :=
  if (enc (ceilScaled (froundTo64 (qualityFloatAt k * 100)))).length ≤ 100000 then
    [qualityFloatAt k]
  else if _h : qualityFloatAt (k + 1) ≤ dbl007 then [qualityFloatAt k]
  else qualityFloatAt k :: webpAttemptsFloatFrom enc (k + 1)
termination_by 12 - k
decreasing_by
  have hk : k < 12 := by
    by_contra hcon
    exact _h (qualityFloat_past_floor (k + 1) (by omega))
  omega

/-- The attempted quality values of a full run (from `quality = 1.0`). -/
def webpAttemptsFloat (enc : ℤ → List ℕ) : List ℤ :=
  webpAttemptsFloatFrom enc 0

lemma webpLoopFloat_step (enc : ℤ → List ℕ) (k : ℕ) (hk : k ≤ 11) :
    webpLoopFloatFrom enc k =
      if (enc (scaledQualities.getD k 0)).length ≤ 100000 then
        Except.ok (enc (scaledQualities.getD k 0))
      else if 11 ≤ k then Except.error (enc (scaledQualities.getD k 0)).length
      else webpLoopFloatFrom enc (k + 1) := by
  have hs := scaledQualities_fact k (by omega)
  rw [webpLoopFloatFrom, hs]
  by_cases hfit : (enc (scaledQualities.getD k 0)).length ≤ 100000
  · rw [if_pos hfit, if_pos hfit]
  · rw [if_neg hfit, if_neg hfit]
    by_cases hfloor : 11 ≤ k
    · have hk11 : k = 11 := by omega
      subst hk11
      rw [dif_pos qualityFloat_floor_12, if_pos le_rfl]
    · rw [dif_neg (qualityFloat_floor_lt k (by omega)), if_neg hfloor]

lemma webpAttemptsFloat_step (enc : ℤ → List ℕ) (k : ℕ) (hk : k ≤ 11) :
    webpAttemptsFloatFrom enc k =
      if (enc (scaledQualities.getD k 0)).length ≤ 100000 then [qualityFloatAt k]
      else if 11 ≤ k then [qualityFloatAt k]
      else qualityFloatAt k :: webpAttemptsFloatFrom enc (k + 1) := by
  have hs := scaledQualities_fact k (by omega)
  rw [webpAttemptsFloatFrom, hs]
  by_cases hfit : (enc (scaledQualities.getD k 0)).length ≤ 100000
  · rw [if_pos hfit, if_pos hfit]
  · rw [if_neg hfit, if_neg hfit]
    by_cases hfloor : 11 ≤ k
    · have hk11 : k = 11 := by omega
      subst hk11
      rw [dif_pos qualityFloat_floor_12, if_pos le_rfl]
    · rw [dif_neg (qualityFloat_floor_lt k (by omega)), if_neg hfloor]

lemma webpLoopFloat_err (enc : ℤ → List ℕ) :
    ∀ (n k : ℕ), k + n = 11 →
      (∀ j, k ≤ j → j ≤ 11 → 100000 < (enc (scaledQualities.getD j 0)).length) →
      webpLoopFloatFrom enc k = Except.error (enc (scaledQualities.getD 11 0)).length
  | 0, k, hk, hover => by
      have hk11 : k = 11 := by omega
      subst hk11
      rw [webpLoopFloat_step enc 11 le_rfl,
        if_neg (by have := hover 11 le_rfl le_rfl; omega), if_pos le_rfl]
  | n + 1, k, hk, hover => by
      rw [webpLoopFloat_step enc k (by omega),
        if_neg (by have := hover k le_rfl (by omega); omega), if_neg (by omega)]
      exact webpLoopFloat_err enc n (k + 1) (by omega)
        (fun j hj1 hj2 => hover j (by omega) hj2)

lemma webpLoopFloat_ok (enc : ℤ → List ℕ) :
    ∀ (n k j0 : ℕ), k + n = 11 → k ≤ j0 → j0 ≤ 11 →
      (enc (scaledQualities.getD j0 0)).length ≤ 100000 →
      (∀ j, k ≤ j → j < j0 → 100000 < (enc (scaledQualities.getD j 0)).length) →
      webpLoopFloatFrom enc k = Except.ok (enc (scaledQualities.getD j0 0))
  | 0, k, j0, hk, hkj, hj11, hfit, hmin => by
      have hk11 : k = 11 := by omega
      have hj0 : j0 = 11 := by omega
      subst hk11; subst hj0
      rw [webpLoopFloat_step enc 11 le_rfl, if_pos hfit]
  | n + 1, k, j0, hk, hkj, hj11, hfit, hmin => by
      by_cases hj : j0 = k
      · subst hj
        rw [webpLoopFloat_step enc j0 (by omega), if_pos hfit]
      · rw [webpLoopFloat_step enc k (by omega),
          if_neg (by have := hmin k le_rfl (by omega); omega), if_neg (by omega)]
        exact webpLoopFloat_ok enc n (k + 1) j0 (by omega) (by omega) hj11 hfit
          (fun j hj1 hj2 => hmin j (by omega) hj2)

lemma webpAttemptsFloat_err (enc : ℤ → List ℕ) :
    ∀ (n k : ℕ), k + n = 11 →
      (∀ j, k ≤ j → j ≤ 11 → 100000 < (enc (scaledQualities.getD j 0)).length) →
      webpAttemptsFloatFrom enc k =
        (List.range (12 - k)).map (fun j => qualityFloatAt (k + j))
  | 0, k, hk, hover => by
      have hk11 : k = 11 := by omega
      subst hk11
      rw [webpAttemptsFloat_step enc 11 le_rfl,
        if_neg (by have := hover 11 le_rfl le_rfl; omega), if_pos le_rfl]
      rfl
  | n + 1, k, hk, hover => by
      rw [webpAttemptsFloat_step enc k (by omega),
        if_neg (by have := hover k le_rfl (by omega); omega), if_neg (by omega),
        webpAttemptsFloat_err enc n (k + 1) (by omega)
          (fun j hj1 hj2 => hover j (by omega) hj2),
        show 12 - k = (12 - (k + 1)) + 1 from by omega,
        List.range_succ_eq_map, List.map_cons, List.map_map]
      refine congrArg₂ _ rfl ?_
      apply List.map_congr_left
      intro j _
      simp only [Function.comp_apply]
      congr 1
      omega

lemma webpAttemptsFloat_ok (enc : ℤ → List ℕ) :
    ∀ (n k j0 : ℕ), k + n = 11 → k ≤ j0 → j0 ≤ 11 →
      (enc (scaledQualities.getD j0 0)).length ≤ 100000 →
      (∀ j, k ≤ j → j < j0 → 100000 < (enc (scaledQualities.getD j 0)).length) →
      webpAttemptsFloatFrom enc k =
        (List.range (j0 + 1 - k)).map (fun j => qualityFloatAt (k + j))
  | 0, k, j0, hk, hkj, hj11, hfit, hmin => by
      have hk11 : k = 11 := by omega
      have hj0 : j0 = 11 := by omega
      subst hk11; subst hj0
      rw [webpAttemptsFloat_step enc 11 le_rfl, if_pos hfit]
      rfl
  | n + 1, k, j0, hk, hkj, hj11, hfit, hmin => by
      by_cases hj : j0 = k
      · subst hj
        rw [webpAttemptsFloat_step enc j0 (by omega), if_pos hfit,
          show j0 + 1 - j0 = 1 from by omega]
        rfl
      · rw [webpAttemptsFloat_step enc k (by omega),
          if_neg (by have := hmin k le_rfl (by omega); omega), if_neg (by omega),
          webpAttemptsFloat_ok enc n (k + 1) j0 (by omega) (by omega) hj11 hfit
            (fun j hj1 hj2 => hmin j (by omega) hj2),
          show j0 + 1 - k = (j0 + 1 - (k + 1)) + 1 from by omega,
          List.range_succ_eq_map, List.map_cons, List.map_map]
        refine congrArg₂ _ rfl ?_
        apply List.map_congr_left
        intro j _
        simp only [Function.comp_apply]
        congr 1
        omega

/-- C3 counterexample: in a run where no attempt fits the ceiling, the third
attempted quality value is the drifted double `0.8400000000000001`
(scaled `3783023686991217 · 2^5`), not the claimed `0.84 = 1 − 0.08·2`, and
scaling it by 100 and rounding up passes 85 to the codec bridge, not the 84
that `⌈100 · 0.84⌉` would give. -/
theorem C3_counterexample :
    ((webpAttemptsFloat oversizedEnc).getD 2 0 : ℚ) / 2 ^ 57 ≠ 1 - (2/25) * 2 ∧
      ceilScaled (froundTo64 ((webpAttemptsFloat oversizedEnc).getD 2 0 * 100)) = 85 := by
  have hatt : webpAttemptsFloat oversizedEnc =
      (List.range 12).map (fun j => qualityFloatAt (0 + j)) := by
    show webpAttemptsFloatFrom oversizedEnc 0 = _
    exact webpAttemptsFloat_err oversizedEnc 11 0 (by omega)
      (fun j _ _ => by rw [oversizedEnc_length]; omega)
  have h2 : (webpAttemptsFloat oversizedEnc).getD 2 0 = qualityFloatAt 2 := by
    rw [hatt]
    rfl
  constructor
  · rw [h2]
    have hval : qualityFloatAt 2 = 3783023686991217 * 2 ^ 5 := by decide
    rw [hval]
    push_cast
    norm_num
  · rw [h2]
    have hs := scaledQualities_fact 2 (by omega)
    rw [hs]
    decide

/-- C3 (amended): under IEEE-754 double semantics the attempted quality
values are exactly the drifted trajectory `qualityFloatAt`: `1.0`, then
`0.92` (the double `8286623314361713 · 2^-53 = 0.91999999999999998…`), then
`0.8400000000000001`, …, each step subtracting the double `0.08`; the loop
stops at the first attempt whose byte length fits the 100000-byte ceiling,
or fails after the twelfth attempt, when the decremented quality first
satisfies `quality <= 0.07`; each attempted quality is scaled by 100
(binary64 product) and rounded up when passed to the codec bridge, yielding
`100, 92, 85, 77, 69, 61, 53, 45, 37, 29, 21, 13` — one above the idealized
`⌈100(1 − 0.08k)⌉` from the third attempt on. -/
theorem C3_quality_sequence_float (enc : ℤ → List ℕ) :
    ((qualityFloatAt 0 : ℚ) / 2 ^ 57 = 1 ∧
      (qualityFloatAt 1 : ℚ) / 2 ^ 57 = 8286623314361713 / 9007199254740992) ∧
    ∃ m, 1 ≤ m ∧ m ≤ 12 ∧
      webpAttemptsFloat enc = (List.range m).map qualityFloatAt ∧
      (∀ k, k < m → ceilScaled (froundTo64 (qualityFloatAt k * 100)) =
        scaledQualities.getD k 0) ∧
      (∀ k, k + 1 < m → 100000 < (enc (scaledQualities.getD k 0)).length) ∧
      (((enc (scaledQualities.getD (m - 1) 0)).length ≤ 100000 ∧
          webpLoopFloat enc = Except.ok (enc (scaledQualities.getD (m - 1) 0))) ∨
        (m = 12 ∧ 100000 < (enc (scaledQualities.getD (m - 1) 0)).length ∧
          webpLoopFloat enc =
            Except.error (enc (scaledQualities.getD (m - 1) 0)).length)) := by
  refine ⟨⟨by norm_num [qualityFloatAt], ?_⟩, ?_⟩
  · have h1 : qualityFloatAt 1 = 8286623314361713 * 2 ^ 4 := by decide
    rw [h1]
    push_cast
    norm_num
  by_cases hex : ∃ j : ℕ, j ≤ 11 ∧ (enc (scaledQualities.getD j 0)).length ≤ 100000
  · have hspec := Nat.find_spec hex
    have hmin : ∀ j, j < Nat.find hex →
        100000 < (enc (scaledQualities.getD j 0)).length := by
      intro j hjlt
      have hnot := Nat.find_min hex hjlt
      push_neg at hnot
      exact hnot (by omega)
    refine ⟨Nat.find hex + 1, by omega, by omega, ?_,
      fun k hk => scaledQualities_fact k (by omega), ?_, ?_⟩
    · show webpAttemptsFloatFrom enc 0 = _
      rw [webpAttemptsFloat_ok enc 11 0 (Nat.find hex) (by omega) (by omega) hspec.1
        hspec.2 (fun j _ hjlt => hmin j hjlt)]
      simp only [Nat.sub_zero, Nat.zero_add]
    · intro k hk
      exact hmin k (by omega)
    · left
      refine ⟨hspec.2, ?_⟩
      show webpLoopFloatFrom enc 0 = _
      exact webpLoopFloat_ok enc 11 0 (Nat.find hex) (by omega) (by omega) hspec.1
        hspec.2 (fun j _ hjlt => hmin j hjlt)
  · push_neg at hex
    refine ⟨12, by omega, by omega, ?_,
      fun k hk => scaledQualities_fact k (by omega), ?_, ?_⟩
    · show webpAttemptsFloatFrom enc 0 = _
      rw [webpAttemptsFloat_err enc 11 0 (by omega) (fun j _ hj2 => hex j hj2)]
      simp only [Nat.zero_add]
    · intro k hk
      exact hex k (by omega)
    · right
      refine ⟨rfl, hex 11 le_rfl, ?_⟩
      show webpLoopFloatFrom enc 0 = _
      exact webpLoopFloat_err enc 11 0 (by omega) (fun j _ hj2 => hex j hj2)

/-- The outcome of `resizeAndConvert`: either the PNG data URL produced by
`image.getBase64Async(Jimp.MIME_PNG)` for the contained image (the
`toWebp = false` path, which performs no further conversion), or the WebP
data-URL payload produced by the quality loop (`toWebp = true`). `input` is
the source bytes and `px` the square size passed to `image.contain(px, px)`;
the raster content itself is opaque here. -/
inductive ConvertResult (ι : Type) where
  | pngUrl (input : ι) (px : ℕ)
  | webpUrl (bytes : List ℕ)
  deriving DecidableEq

/-- Transliteration of `resizeAndConvert(input, px, toWebp)`: Jimp reads the
input and contains it to `px × px`; if `toWebp`, the canvas image data is
re-encoded through the quality loop starting at `quality = 1.0`; otherwise
the PNG data URL is returned as is (no encoder call, no size ceiling). `enc`
abstracts the codec bridge on this input's image data as in `webpLoop`. -/
def resizeAndConvert (enc : ℤ → List ℕ) (input : ι) (px : ℕ) (toWebp : Bool) :
    Except ℕ (ConvertResult ι) :=
  if toWebp then (webpLoop enc 1).map ConvertResult.webpUrl
  else Except.ok (ConvertResult.pngUrl input px)

/-- The type tag passed to `processImageFile`: the string `'tray'` or
`'stickers'`. -/
inductive ImageKind where
  | tray
  | stickers
  deriving DecidableEq

/-- Transliteration of `processImageFile(file, type)`: for `type === 'tray'`
it resolves `resizeAndConvert(bytes, 96, false)`, for `type === 'stickers'`
it resolves `resizeAndConvert(bytes, 512, true)`. -/
def processImageFile (enc : ℤ → List ℕ) (file : ι) : ImageKind → Except ℕ (ConvertResult ι)
  | ImageKind.tray => resizeAndConvert enc file 96 false
  | ImageKind.stickers => resizeAndConvert enc file 512 true

/-- C1: for every raster image input (every byte-output behaviour `enc` of the
codec bridge on it), `resizeAndConvert` with `toWebp = true` either returns an
encoded WebP whose payload byte length is at most 100000, or fails with an
error carrying the byte length of the last attempt (still above 100000); it
never returns a result whose byte length exceeds 100000. -/
theorem C1_size_constrained_encoding (enc : ℤ → List ℕ) (input : ι) (px : ℕ) :
    (∃ bytes, resizeAndConvert enc input px true = Except.ok (ConvertResult.webpUrl bytes) ∧
        bytes.length ≤ 100000) ∨
      (resizeAndConvert enc input px true = Except.error ((enc 12).length) ∧
        100000 < (enc 12).length) := by
  rcases webpLoop_size_spec enc with ⟨bytes, hok, hlen⟩ | ⟨herr, hover⟩
  · left
    exact ⟨bytes, by simp only [resizeAndConvert, if_true, hok]; rfl, hlen⟩
  · right
    exact ⟨by simp only [resizeAndConvert, if_true, herr]; rfl, hover⟩

/-- C4 counterexample: with an encoder that can never meet the 100000-byte
ceiling, processing the tray still succeeds and yields the PNG data URL —
the tray goes through `resizeAndConvert(_, 96, false)`, is not WebP-encoded
and is not subject to the ceiling — while the sticker path fails. -/
theorem C4_counterexample :
    processImageFile oversizedEnc (0 : ℕ) ImageKind.tray =
        Except.ok (ConvertResult.pngUrl 0 96) ∧
      processImageFile oversizedEnc (0 : ℕ) ImageKind.stickers = Except.error 100001 := by
  constructor
  · rfl
  · show (webpLoop oversizedEnc 1).map ConvertResult.webpUrl = Except.error 100001
    have h := webpLoop_err oversizedEnc 11 0 (by omega)
      (fun j _ _ => by rw [oversizedEnc_length]; omega)
    rw [qualityAt_zero, oversizedEnc_length] at h
    rw [h]
    rfl

/-- C4 (amended): every sticker image is encoded through the
quality-constrained encoder, so every successful sticker result is WebP with
at most 100000 bytes; the tray image, however, is resized to 96×96 and
returned as a PNG data URL without invoking the WebP encoder and without any
size ceiling. -/
theorem C4_tray_and_sticker_paths (enc : ℤ → List ℕ) (file : ι) :
    processImageFile enc file ImageKind.tray =
        Except.ok (ConvertResult.pngUrl file 96) ∧
      (∀ r, processImageFile enc file ImageKind.stickers = Except.ok r →
        ∃ bytes, r = ConvertResult.webpUrl bytes ∧ bytes.length ≤ 100000) := by
  constructor
  · rfl
  · intro r hr
    rcases webpLoop_size_spec enc with ⟨bytes, hok, hlen⟩ | ⟨herr, -⟩
    · refine ⟨bytes, ?_, hlen⟩
      have hs : processImageFile enc file ImageKind.stickers =
          Except.ok (ConvertResult.webpUrl bytes) := by
        show resizeAndConvert enc file 512 true = _
        simp only [resizeAndConvert, if_true, hok]
        rfl
      rw [hs] at hr
      injection hr with hr
      exact hr.symm
    · have hs : processImageFile enc file ImageKind.stickers =
          Except.error ((enc 12).length) := by
        show resizeAndConvert enc file 512 true = _
        simp only [resizeAndConvert, if_true, herr]
        rfl
      rw [hs] at hr
      exact Except.noConfusion hr

/-- Witness for C4 (amended): a concrete run with an encoder that always
returns the empty byte sequence; the tray run yields the PNG and the sticker
run satisfies the WebP bound. -/
theorem C4_tray_and_sticker_paths_witness :
    processImageFile (fun _ : ℤ => ([] : List ℕ)) (0 : ℕ) ImageKind.tray =
        Except.ok (ConvertResult.pngUrl 0 96) ∧
      ((ConvertResult.webpUrl [] : ConvertResult ℕ) = ConvertResult.webpUrl [] ∧
        ([] : List ℕ).length ≤ 100000) := by
  refine ⟨(C4_tray_and_sticker_paths (fun _ : ℤ => ([] : List ℕ)) 0).1, ?_⟩
  have hs : processImageFile (fun _ : ℤ => ([] : List ℕ)) (0 : ℕ) ImageKind.stickers =
      Except.ok (ConvertResult.webpUrl []) := by
    show resizeAndConvert _ _ 512 true = _
    have h1 : webpLoop (fun _ : ℤ => ([] : List ℕ)) 1 = Except.ok [] := by
      rw [webpLoop]
      norm_num
    simp only [resizeAndConvert, if_true, h1]
    rfl
  obtain ⟨bytes, hb, hlen⟩ :=
    (C4_tray_and_sticker_paths (fun _ : ℤ => ([] : List ℕ)) 0).2
      (ConvertResult.webpUrl []) hs
  exact ⟨rfl, by norm_num⟩

/-- A native-buffer lifecycle event of the codec bridge, in program order:
`createBuffer` for `create_buffer` / `create_buffer_with_size` (allocation of
the input NativeBuffer), `freeResult` for `free_result(resultPointer)`
(release of the module-owned result region) and `destroyBuffer` for
`destroy_buffer(p)` (release of the input buffer). -/
inductive BufEvent where
  | createBuffer
  | freeResult
  | destroyBuffer
  deriving DecidableEq

/-- What the native module exposes after the `encode` primitive ran: the
module heap (`module.HEAP8.buffer`), the recorded result pointer
(`get_encode_result_pointer`) and result size (`get_encode_result_size`).
An oracle: the bridge never inspects it for failure. -/
structure EncodeModuleState where
  heap : List ℕ
  resultPtr : ℕ
  resultSize : ℕ
  deriving DecidableEq

/-- The pixel data handed to the encode bridge (`imageData`): width, height
and the RGBA byte array. It is copied into the input buffer and consumed by
the native primitive; the modelled observables depend only on the recorded
module state. -/
structure ImageData where
  width : ℕ
  height : ℕ
  data : List ℕ
  deriving DecidableEq

/-- Transliteration of `convertImageDataToWebpURL(imageData, quality)`:

```
const p = this.api.create_buffer(imageData.width, imageData.height);
this.module.HEAP8.set(imageData.data, p);
this.api.encode(p, imageData.width, imageData.height, quality);
const resultPointer = this.api.get_encode_result_pointer();
const resultSize = this.api.get_encode_result_size();
const resultView = new Uint8Array(this.module.HEAP8.buffer, resultPointer, resultSize);
const result = new Uint8Array(resultView);
this.api.free_result(resultPointer);
this.api.destroy_buffer(p);
return `data:image/webp;base64,${btoa(...)}`;
```

The returned value is modelled as the data-URL payload (the copied-out result
bytes, read from the heap at the recorded region). Constructing the
`Uint8Array` view throws a `RangeError` when the recorded region lies outside
the heap; the function has no try/finally, so the error propagates before
`free_result` and `destroy_buffer` run. On the non-throwing path the trace
is allocate, then free the result region, then destroy the input buffer.
No failure or zero-length check of the native result is performed anywhere. -/
def convertImageDataToWebpURL (m : EncodeModuleState) (imageData : ImageData)
    (quality : ℕ) : Except (List Char) (List ℕ) × List BufEvent :=
  if m.resultPtr + m.resultSize ≤ m.heap.length then
    (Except.ok ((m.heap.drop m.resultPtr).take m.resultSize),
      [BufEvent.createBuffer, BufEvent.freeResult, BufEvent.destroyBuffer])
  else (Except.error ("RangeError".toList), [BufEvent.createBuffer])

/-- What the native module exposes after the `decode` primitive ran: the
module heap and the recorded result pointer, width and height
(`get_decode_result_pointer` / `_width` / `_height`). -/
structure DecodeModuleState where
  heap : List ℕ
  resultPtr : ℕ
  width : ℕ
  height : ℕ
  deriving DecidableEq

/-- The decoded output of `convertWebpURLToPngURL`: the canvas receives
`width × height` and the copied RGBA bytes (then exports a PNG data URL). -/
structure PngImage where
  width : ℕ
  height : ℕ
  data : List ℕ
  deriving DecidableEq

/-- Transliteration of `convertWebpURLToPngURL(url)`: the base64 payload of
`url` is decoded to `bytes`; then
`p = create_buffer_with_size(bytes.byteLength)`, `HEAP8.set(bytes, p)`,
`decode(p, len)` (its return value is ignored by the source), the result
pointer, width and height are read, `resultSize = width * height * 4`, the
result view is copied out (`RangeError` aborts before any release, as in
encode), then `free_result(resultPointer)`, `destroy_buffer(p)`, and the
pixels are drawn to a canvas exported as a PNG data URL. -/
def convertWebpURLToPngURL (m : DecodeModuleState) (bytes : List ℕ) :
    Except (List Char) PngImage × List BufEvent :=
  if m.resultPtr + m.width * m.height * 4 ≤ m.heap.length then
    (Except.ok ⟨m.width, m.height,
        (m.heap.drop m.resultPtr).take (m.width * m.height * 4)⟩,
      [BufEvent.createBuffer, BufEvent.freeResult, BufEvent.destroyBuffer])
  else (Except.error ("RangeError".toList), [BufEvent.createBuffer])

/-- C2 counterexample: an encode call whose native-recorded result region
lies outside the heap. Copying the result out raises, the function exits
with the input buffer allocated but never released and the result region
never freed — so not every exit path releases each buffer exactly once. -/
theorem C2_counterexample :
    (convertImageDataToWebpURL ⟨[], 5, 7⟩ ⟨1, 1, [0, 0, 0, 0]⟩ 100).2.count
        BufEvent.createBuffer = 1 ∧
      (convertImageDataToWebpURL ⟨[], 5, 7⟩ ⟨1, 1, [0, 0, 0, 0]⟩ 100).2.count
        BufEvent.destroyBuffer = 0 ∧
      (convertImageDataToWebpURL ⟨[], 5, 7⟩ ⟨1, 1, [0, 0, 0, 0]⟩ 100).2.count
        BufEvent.freeResult = 0 ∧
      (convertImageDataToWebpURL ⟨[], 5, 7⟩ ⟨1, 1, [0, 0, 0, 0]⟩ 100).1 =
        Except.error ("RangeError".toList) := by
  decide

/-- C2 (amended): in every encode call and every decode call that returns
normally, each allocated buffer is released exactly once — the result region
first, the input buffer second (the trace is exactly allocate, free result,
destroy input) — but on paths where the copy-out of the result raises, the
function propagates the error having allocated the input buffer and released
nothing (the source has no try/finally). -/
theorem C2_buffer_release (m : EncodeModuleState) (d : DecodeModuleState)
    (imageData : ImageData) (quality : ℕ) (bytes : List ℕ) :
    (∀ v, (convertImageDataToWebpURL m imageData quality).1 = Except.ok v →
      (convertImageDataToWebpURL m imageData quality).2 =
        [BufEvent.createBuffer, BufEvent.freeResult, BufEvent.destroyBuffer]) ∧
      (∀ e, (convertImageDataToWebpURL m imageData quality).1 = Except.error e →
        (convertImageDataToWebpURL m imageData quality).2 = [BufEvent.createBuffer]) ∧
      (∀ v, (convertWebpURLToPngURL d bytes).1 = Except.ok v →
        (convertWebpURLToPngURL d bytes).2 =
          [BufEvent.createBuffer, BufEvent.freeResult, BufEvent.destroyBuffer]) ∧
      (∀ e, (convertWebpURLToPngURL d bytes).1 = Except.error e →
        (convertWebpURLToPngURL d bytes).2 = [BufEvent.createBuffer]) := by
  unfold convertImageDataToWebpURL convertWebpURLToPngURL
  by_cases hm : m.resultPtr + m.resultSize ≤ m.heap.length <;>
    by_cases hd : d.resultPtr + d.width * d.height * 4 ≤ d.heap.length <;>
      simp [hm, hd]

/-- Witness for C2 (amended) at concrete in-bounds module states: both the
encode and the decode call produce the balanced, ordered release trace. -/
theorem C2_buffer_release_witness :
    (convertImageDataToWebpURL ⟨[1, 2, 3], 0, 3⟩ ⟨1, 1, [9]⟩ 100).2 =
        [BufEvent.createBuffer, BufEvent.freeResult, BufEvent.destroyBuffer] ∧
      (convertWebpURLToPngURL ⟨[1, 2, 3, 4], 0, 1, 1⟩ [7]).2 =
        [BufEvent.createBuffer, BufEvent.freeResult, BufEvent.destroyBuffer] :=
  ⟨(C2_buffer_release ⟨[1, 2, 3], 0, 3⟩ ⟨[1, 2, 3, 4], 0, 1, 1⟩ ⟨1, 1, [9]⟩ 100 [7]).1
      [1, 2, 3] (by decide),
    (C2_buffer_release ⟨[1, 2, 3], 0, 3⟩ ⟨[1, 2, 3, 4], 0, 1, 1⟩ ⟨1, 1, [9]⟩ 100 [7]).2.2.1
      ⟨1, 1, [1, 2, 3, 4]⟩ (by decide)⟩

/-- C8 counterexample: when the native module records a zero-length result,
the encode bridge does not fail — it returns a successful (empty) encoded
payload built from the zero-length native result. -/
theorem C8_counterexample :
    (convertImageDataToWebpURL ⟨[], 0, 0⟩ ⟨1, 1, [0, 0, 0, 0]⟩ 100).1 =
      Except.ok [] := by
  decide

/-- C8 (amended): the encode bridge performs no native-failure or zero-length
check at all: a call succeeds exactly when the recorded result region lies
within the heap (the only possible failure is the `RangeError` thrown when
the result view would exceed the heap), and then it returns precisely the
recorded bytes — of length `resultSize`, even when that is zero. -/
theorem C8_no_failure_check (m : EncodeModuleState) (imageData : ImageData)
    (quality : ℕ) :
    ((∀ e, (convertImageDataToWebpURL m imageData quality).1 ≠ Except.error e) ↔
        m.resultPtr + m.resultSize ≤ m.heap.length) ∧
      (m.resultPtr + m.resultSize ≤ m.heap.length →
        (convertImageDataToWebpURL m imageData quality).1 =
            Except.ok ((m.heap.drop m.resultPtr).take m.resultSize) ∧
          ((m.heap.drop m.resultPtr).take m.resultSize).length = m.resultSize) := by
  unfold convertImageDataToWebpURL
  by_cases hm : m.resultPtr + m.resultSize ≤ m.heap.length
  · refine ⟨⟨fun _ => hm, fun _ e => by simp [hm]⟩, fun _ => ⟨by simp [hm], ?_⟩⟩
    rw [List.length_take, List.length_drop]
    omega
  · refine ⟨⟨fun hne => absurd (hne ("RangeError".toList)) (by simp [hm]), fun h => absurd h hm⟩,
      fun h => absurd h hm⟩

/-- Witness for C8 (amended) at a concrete in-bounds module state with a
one-byte result. -/
theorem C8_no_failure_check_witness :
    (convertImageDataToWebpURL ⟨[5], 0, 1⟩ ⟨1, 1, [0]⟩ 50).1 = Except.ok [5] ∧
      ([5] : List ℕ).length = 1 :=
  (C8_no_failure_check ⟨[5], 0, 1⟩ ⟨1, 1, [0]⟩ 50).2 (by decide)

/-- Whether an archive member path is a qualifying image in `unzip`:
`!relativePath.startsWith('__MACOSX') && (relativePath.endsWith('.png') || relativePath.endsWith('.jpg'))`.
Paths are modelled as character sequences. -/
def qualifies (relativePath : List Char) : Bool :=
  (!(("__MACOSX".toList).isPrefixOf relativePath)) &&
    ((".png".toList).isSuffixOf relativePath || (".jpg".toList).isSuffixOf relativePath)

/-- The value resolved by `unzip`. Member paths stand for their blobs
(`zip.file(path).async('blob')` maps each path to its content). -/
structure UnzipResult where
  trayFile : List Char
  stickersFiles : List (List Char)
  deriving DecidableEq

/-- Transliteration of `unzip(data)`: collect the qualifying member paths in
archive iteration order (`zip.forEach`), throw `'Less than 3 images are found!'`
when fewer than 3 qualify, otherwise resolve `trayFile` from the first
qualifying member (`imagePaths[0]`) and `stickersFiles` from all qualifying
members — the first one included. -/
def unzip (paths : List (List Char)) : Except (List Char) UnzipResult :=
  let imagePaths := paths.filter qualifies
  if imagePaths.length < 3 then Except.error ("Less than 3 images are found!".toList)
  else Except.ok ⟨imagePaths.getD 0 [], imagePaths⟩

/-- C10: for every archive with at least 3 qualifying images, `unzip` returns
the first qualifying image (in archive iteration order) as the tray file, and
that same image is also the first element of the returned stickers list — the
tray source image is additionally packaged as a sticker. -/
theorem C10_tray_also_first_sticker (paths : List (List Char))
    (h : 3 ≤ (paths.filter qualifies).length) :
    ∃ r, unzip paths = Except.ok r ∧
      r.trayFile = (paths.filter qualifies).getD 0 [] ∧
      r.stickersFiles = paths.filter qualifies ∧
      r.stickersFiles.getD 0 [] = r.trayFile := by
  refine ⟨⟨(paths.filter qualifies).getD 0 [], paths.filter qualifies⟩, ?_, rfl, rfl, rfl⟩
  simp only [unzip]
  rw [if_neg (by omega)]

/-- Witness for C10 at a concrete archive listing: a `__MACOSX` entry and a
non-image entry are skipped, `x.png` becomes the tray and also the first
sticker. -/
theorem C10_tray_also_first_sticker_witness :
    unzip [("__MACOSX/a.png".toList), ("x.png".toList), ("y.jpg".toList),
        ("z.png".toList), ("notes.txt".toList)] =
      Except.ok ⟨"x.png".toList,
        [("x.png".toList), ("y.jpg".toList), ("z.png".toList)]⟩ := by
  obtain ⟨r, hr, ht, hs, -⟩ :=
    C10_tray_also_first_sticker [("__MACOSX/a.png".toList), ("x.png".toList),
      ("y.jpg".toList), ("z.png".toList), ("notes.txt".toList)] (by decide)
  rw [hr]
  have ht' : r.trayFile = "x.png".toList := by rw [ht]; decide
  have hs' : r.stickersFiles = [("x.png".toList), ("y.jpg".toList), ("z.png".toList)] := by
    rw [hs]; decide
  cases r
  simp only at ht' hs'
  rw [ht', hs']

end StickersConverter
